import Mathlib

/-!
# go-winmm: the WaveOut buffer ring

A shallow embedding of `winmm.go` / `win32.go` (package `winmm`).

Conventions of the embedding.

* Target `windows/amd64`: Go `int` is a 64-bit two's complement integer and
  `uintptr` is 64 bits wide. Fixed-width fields are natural numbers reduced
  modulo `2^w` at every conversion the source performs.
* A `*WaveOutData` is either `nil` or the address of one of the three elements
  of `w.buffers`; it is modelled as `Option (Fin 3)`.
* A `[]byte` is its slice header: address of the first element and length. The
  source never reads the bytes themselves.
* The buffered channel `available` is its capacity, its queue and its closed
  flag, with the Go semantics of receive, send and close. An operation that
  would park the goroutine yields `blocked`; a run-time panic yields `panic`.
* The winmm procedures are external. Their status words are parameters of the
  operation that calls them and every call made is reported, in order, in the
  `calls` component of the outcome. What the driver itself stores in a header
  it owns (its flag bits) is outside the embedding: the source never reads it.
-/

namespace Winmm

/-! ## win32.go -/

/-- The winmm error code WAVERR_STILLPLAYING. -/
def WAVERR_STILLPLAYING : Nat := 33

/-- PCM wave format tag. -/
def WAVE_FORMAT_PCM : Nat := 0x0001

/-- The system default wave device. -/
def WAVE_MAPPER : Nat := 0xFFFFFFFF

/-- A pointer to a `WaveOutData`: `none` is nil, `some i` is `&w.buffers[i]`. -/
abbrev Ptr := Option (Fin 3)

/-- WAVEHDR, the device-visible descriptor of one buffer. `LpNext` holds the
address of another slot's header and is kept as a pointer. -/
structure WAVEHDR where
  LpData : Nat
  DwBufferLength : Nat
  DwBytesRecorded : Nat
  DwUser : Nat
  DwFlags : Nat
  DwLoops : Nat
  LpNext : Ptr
  Reserved : Nat
  deriving DecidableEq, Repr

/-- WAVEFORMATEX, the wave format handed to waveOutOpen. -/
structure WAVEFORMATEX where
  WFormatTag : Nat
  NChannels : Nat
  NSamplesPerSec : Nat
  NAvgBytesPerSec : Nat
  NBlockAlign : Nat
  WBitsPerSample : Nat
  CbSize : Nat
  deriving DecidableEq, Repr

/-- Value of `unsafe.Sizeof` for a WAVEFORMATEX: 18 bytes of fields, padded to
the 4-byte alignment of the struct. -/
def sizeofWAVEFORMATEX : Nat := 20

/-- Value of `unsafe.Sizeof` for a WAVEHDR on the 64-bit target. -/
def sizeofWAVEHDR : Nat := 48

/-! ## Machine integers -/

/-- Wrap-around of a Go `int` (64 bits, two's complement). -/
def wrapInt (x : Int) : Int := (x + 2 ^ 63) % 2 ^ 64 - 2 ^ 63

/-- The conversion `uint16(x)` of a Go `int`. -/
def toUint16 (x : Int) : Nat := (x % 2 ^ 16).toNat

/-- The conversion `uint32(x)` of a Go `int`. -/
def toUint32 (x : Int) : Nat := (x % 2 ^ 32).toNat

/-! ## winmm.go: data -/

/-- A `[]byte` value: address of element 0 and length. -/
structure ByteSlice where
  ptr : Nat
  len : Nat
  deriving DecidableEq, Repr

/-- WaveOutData: the header and the Go slice sent out to the device. -/
structure WaveOutData where
  hdr : WAVEHDR
  data : ByteSlice
  deriving DecidableEq, Repr

/-- The array `[3]WaveOutData`. -/
structure Buffers where
  b0 : WaveOutData
  b1 : WaveOutData
  b2 : WaveOutData
  deriving DecidableEq, Repr

/-- Read of `buffers[i]`. -/
def Buffers.get (b : Buffers) : Fin 3 → WaveOutData
  | 0 => b.b0
  | 1 => b.b1
  | 2 => b.b2

/-- Assignment to `buffers[i]`. -/
def Buffers.set (b : Buffers) (i : Fin 3) (v : WaveOutData) : Buffers :=
  match i with
  | 0 => { b with b0 := v }
  | 1 => { b with b1 := v }
  | 2 => { b with b2 := v }

/-- A buffered `chan *WaveOutData`: `buf` is the queue, head first. -/
structure Chan where
  cap : Nat
  buf : List Ptr
  closed : Bool
  deriving DecidableEq, Repr

/-- Result of a receive `<-c`. -/
inductive RecvResult where
  | value (v : Ptr) (c : Chan)
  | blocked
  deriving DecidableEq, Repr

/-- Result of a send `c <- v`. -/
inductive SendResult where
  | sent (c : Chan)
  | blocked
  | panicked
  deriving DecidableEq, Repr

/-- The expression `make(chan *WaveOutData, n)`. -/
def Chan.make (n : Nat) : Chan := { cap := n, buf := [], closed := false }

/-- Receive: the head of the queue if there is one; on an empty queue the zero
value (nil) when the channel is closed, and a parked goroutine otherwise. -/
def Chan.recv (c : Chan) : RecvResult :=
  match c.buf with
  | v :: rest => .value v { c with buf := rest }
  | [] => if c.closed then .value none c else .blocked

/-- Send: a panic on a closed channel, an append at the tail when there is
room, and a parked goroutine otherwise. -/
def Chan.send (c : Chan) (v : Ptr) : SendResult :=
  if c.closed then .panicked
  else if c.buf.length < c.cap then .sent { c with buf := c.buf ++ [v] }
  else .blocked

/-- The builtin `close(c)`: `none` is the panic on an already closed channel. -/
def Chan.close (c : Chan) : Option Chan :=
  if c.closed then none else some { c with closed := true }

/-- WaveOut, a sound device of the windows multimedia system. -/
structure WaveOut where
  handle : Nat
  buffers : Buffers
  available : Chan
  deriving DecidableEq, Repr

/-- A call of a winmm procedure, with the arguments the source passes. A header
argument is the slot whose header is pointed to and the header contents at the
time of the call. -/
inductive DevCall where
  | waveOutOpen (uDeviceID : Nat) (pwfx : WAVEFORMATEX)
  | waveOutPrepareHeader (hwo : Nat) (slot : Fin 3) (pwh : WAVEHDR) (cbwh : Nat)
  | waveOutWrite (hwo : Nat) (slot : Fin 3) (pwh : WAVEHDR) (cbwh : Nat)
  | waveOutUnprepareHeader (hwo : Nat) (slot : Fin 3) (pwh : WAVEHDR) (cbwh : Nat)
  | waveOutClose (hwo : Nat)
  deriving DecidableEq, Repr

/-- The run-time panics the operations can raise. -/
inductive Panic where
  | nilDereference
  | indexOutOfRange
  | sendOnClosedChannel
  | closeOfClosedChannel
  deriving DecidableEq, Repr

/-- How a method call ends: it returns `v`, it parks on the channel, or it
panics. In each case `w` is the receiver at that point and `calls` the winmm
calls made so far. -/
inductive Outcome (α : Type) where
  | ret (w : WaveOut) (v : α) (calls : List DevCall)
  | blocked (w : WaveOut) (calls : List DevCall)
  | panic (w : WaveOut) (calls : List DevCall) (p : Panic)
  deriving DecidableEq, Repr

/-- How `New` ends: `created` is `return &w, nil`, `failed` is the error
return carrying the status of waveOutOpen, `stuck` is a send of the
initialisation loop that did not complete. -/
inductive NewOutcome where
  | created (w : WaveOut) (calls : List DevCall)
  | failed (result : Nat) (calls : List DevCall)
  | stuck
  deriving DecidableEq, Repr

/-! ## winmm.go: operations -/

/-- The zero value of WAVEHDR. -/
def WAVEHDR.zero : WAVEHDR :=
  { LpData := 0, DwBufferLength := 0, DwBytesRecorded := 0, DwUser := 0,
    DwFlags := 0, DwLoops := 0, LpNext := none, Reserved := 0 }

/-- The zero value of WaveOutData (nil slice). -/
def WaveOutData.zero : WaveOutData :=
  { hdr := WAVEHDR.zero, data := { ptr := 0, len := 0 } }

/-- The value `WaveOut{}` with the channel made by `New`. -/
def WaveOut.fresh : WaveOut :=
  { handle := 0,
    buffers := { b0 := WaveOutData.zero, b1 := WaveOutData.zero, b2 := WaveOutData.zero },
    available := Chan.make 3 }

/-- One iteration of the loop of `New`: link slot `i` to its successor and
send its address on the channel. -/
def newLoopBody (w : WaveOut) (i : Fin 3) : Option WaveOut :=
  let next : Fin 3 := if h : i.val < 3 - 1 then ⟨i.val + 1, by omega⟩ else 0
  let slot := w.buffers.get i
  let w1 := { w with buffers := w.buffers.set i { slot with hdr := { slot.hdr with LpNext := some next } } }
  match w1.available.send (some i) with
  | .sent c => some { w1 with available := c }
  | _ => none

/-- The loop `for i := 0; i < len(w.buffers); i++` of `New`. -/
def newLoop (w : WaveOut) : Option WaveOut :=
  [(0 : Fin 3), 1, 2].foldlM newLoopBody w

/-- The format `wfx` that `New` builds from its arguments. -/
def mkFormat (channels samplesPerSec bitsPerSample : Int) : WAVEFORMATEX :=
  let nSamplesPerSec := toUint32 samplesPerSec
  let nBlockAlign := toUint16 (Int.tdiv (wrapInt (channels * bitsPerSample)) 8)
  { WFormatTag := WAVE_FORMAT_PCM,
    NChannels := toUint16 channels,
    NSamplesPerSec := nSamplesPerSec,
    WBitsPerSample := toUint16 bitsPerSample,
    CbSize := sizeofWAVEFORMATEX % 2 ^ 16,
    NBlockAlign := nBlockAlign,
    NAvgBytesPerSec := (nSamplesPerSec * (nBlockAlign % 2 ^ 32)) % 2 ^ 32 }

/-- New creates a WaveOut device. `openResult` is the status waveOutOpen
returns and `phwo` the handle it stores through its first argument. -/
def New (channels samplesPerSec bitsPerSample : Int) (openResult phwo : Nat) : NewOutcome :=
  match newLoop WaveOut.fresh with
  | none => .stuck
  | some w =>
    let wfx := mkFormat channels samplesPerSec bitsPerSample
    let calls := [DevCall.waveOutOpen WAVE_MAPPER wfx]
    if openResult ≠ 0 then .failed openResult calls
    else .created { w with handle := phwo } calls

/-- Write prepares a byte slice for output. `prepareResult` and `writeResult`
are the statuses of waveOutPrepareHeader and waveOutWrite, which the source
assigns to blank identifiers. -/
def Write (w : WaveOut) (data : ByteSlice) (prepareResult writeResult : Nat) : Outcome Ptr :=
  match w.available.recv with
  | .blocked => .blocked w []
  | .value wave c =>
    let w1 := { w with available := c }
    match wave with
    | none => .panic w1 [] .nilDereference
    | some i =>
      let w2 := { w1 with buffers := w1.buffers.set i { w1.buffers.get i with data := data } }
      if data.len = 0 then .panic w2 [] .indexOutOfRange
      else
        let slot := w2.buffers.get i
        let hdr := { slot.hdr with LpData := data.ptr, DwBufferLength := data.len % 2 ^ 32 }
        let w3 := { w2 with buffers := w2.buffers.set i { slot with hdr := hdr } }
        let _ := prepareResult
        let _ := writeResult
        .ret w3 (some i)
          [DevCall.waveOutPrepareHeader w3.handle i hdr sizeofWAVEHDR,
           DevCall.waveOutWrite w3.handle i hdr sizeofWAVEHDR]

/-- IsHeaderFinished asks the device whether a buffer has finished playing and
puts it back on the channel when it has. `result` is the status of
waveOutUnprepareHeader. -/
def IsHeaderFinished (w : WaveOut) (hdr : Ptr) (result : Nat) : Outcome Bool :=
  match hdr with
  | none => .panic w [] .nilDereference
  | some i =>
    let calls := [DevCall.waveOutUnprepareHeader w.handle i (w.buffers.get i).hdr sizeofWAVEHDR]
    if result = WAVERR_STILLPLAYING then .ret w false calls
    else
      match w.available.send hdr with
      | .sent c => .ret { w with available := c } true calls
      | .blocked => .blocked w calls
      | .panicked => .panic w calls .sendOnClosedChannel

/-- Close terminates a WaveOut device. `closeResult` is the status of
waveOutClose, which the source assigns to a blank identifier. -/
def Close (w : WaveOut) (closeResult : Nat) : Outcome Unit :=
  let step1 : WaveOut × List DevCall :=
    if w.handle ≠ 0 then ({ w with handle := 0 }, [DevCall.waveOutClose w.handle])
    else (w, [])
  let _ := closeResult
  match step1.1.available.close with
  | some c => .ret { step1.1 with available := c } () step1.2
  | none => .panic step1.1 step1.2 .closeOfClosedChannel

/-! ## Runs of a ring

The client of a ring calls `Write` and `IsHeaderFinished`. Beside the receiver
a run carries three ghost components: the handles in flight (returned by
`Write` and not yet reclaimed by an `IsHeaderFinished` that returned true), the
handles `Write` returned in call order, and the winmm calls in issue order.
A call that parks or panics ends the run.
-/

/-- A client call: `Write(data)` or `IsHeaderFinished(&w.buffers[h])`, each
with the statuses the device answers during the call. -/
inductive Call where
  | write (data : ByteSlice) (prepareResult writeResult : Nat)
  | isHeaderFinished (h : Fin 3) (result : Nat)
  deriving DecidableEq, Repr

/-- A ring together with the ghost components of its run. -/
structure Ring where
  w : WaveOut
  inflight : List (Fin 3)
  issued : List (Fin 3)
  log : List DevCall
  deriving DecidableEq, Repr

/-- One client call under the handle contract: `IsHeaderFinished` is called
only on a handle that is in flight. -/
def Ring.step (r : Ring) : Call → Option Ring
  | .write data prepareResult writeResult =>
    match Write r.w data prepareResult writeResult with
    | .ret w1 (some h) calls =>
      some { w := w1, inflight := r.inflight ++ [h], issued := r.issued ++ [h],
             log := r.log ++ calls }
    | _ => none
  | .isHeaderFinished h result =>
    if h ∈ r.inflight then
      match IsHeaderFinished r.w (some h) result with
      | .ret w1 true calls =>
        some { r with w := w1, inflight := r.inflight.erase h, log := r.log ++ calls }
      | .ret w1 false calls =>
        some { r with w := w1, log := r.log ++ calls }
      | _ => none
    else none

/-- A sequence of client calls, each one returning. -/
def Ring.run (r : Ring) (cs : List Call) : Option Ring :=
  cs.foldlM Ring.step r

/-- The ring right after a successful `New`. -/
def Ring.start (w : WaveOut) (calls : List DevCall) : Ring :=
  { w := w, inflight := [], issued := [], log := calls }

/-- States reachable from `New` by calls of `Write` and `IsHeaderFinished` that
follow the handle contract. -/
def Reachable (r : Ring) : Prop :=
  ∃ (channels samplesPerSec bitsPerSample : Int) (openResult phwo : Nat)
    (w : WaveOut) (calls : List DevCall) (cs : List Call),
    New channels samplesPerSec bitsPerSample openResult phwo = .created w calls ∧
    (Ring.start w calls).run cs = some r

/-- The descriptors (address, length) of the play commands of a log, in issue
order. -/
def playsOf (log : List DevCall) : List (Nat × Nat) :=
  log.filterMap fun c =>
    match c with
    | .waveOutWrite _ _ pwh _ => some (pwh.LpData, pwh.DwBufferLength)
    | _ => none

/-- The data of the `Write` calls of a call sequence, in call order. -/
def writesOf (cs : List Call) : List ByteSlice :=
  cs.filterMap fun c =>
    match c with
    | .write data _ _ => some data
    | _ => none

/-- Successive `IsHeaderFinished` calls on one handle while the device keeps
answering WAVERR_STILLPLAYING: the final receiver and the values returned. -/
def pollStillPlaying (w : WaveOut) (hdr : Ptr) : Nat → Option (WaveOut × List Bool)
  | 0 => some (w, [])
  | n + 1 =>
    match IsHeaderFinished w hdr WAVERR_STILLPLAYING with
    | .ret w1 v _ => (pollStillPlaying w1 hdr n).map fun p => (p.1, v :: p.2)
    | _ => none

/-- The winmm calls made by `New`. -/
def NewOutcome.calls : NewOutcome → List DevCall
  | .created _ calls => calls
  | .failed _ calls => calls
  | .stuck => []

/-! ## Example values -/

/-- The receiver returned by `New(2, 44100, 16)` when the device opens with
handle 1. -/
def exampleWaveOut : WaveOut :=
  { handle := 1,
    buffers :=
      { b0 := { WaveOutData.zero with hdr := { WAVEHDR.zero with LpNext := some 1 } },
        b1 := { WaveOutData.zero with hdr := { WAVEHDR.zero with LpNext := some 2 } },
        b2 := { WaveOutData.zero with hdr := { WAVEHDR.zero with LpNext := some 0 } } },
    available := { cap := 3, buf := [some 0, some 1, some 2], closed := false } }

/-- The winmm call of `New(2, 44100, 16)`. -/
def exampleOpen : List DevCall :=
  [DevCall.waveOutOpen WAVE_MAPPER
    { WFormatTag := 1, NChannels := 2, NSamplesPerSec := 44100, NAvgBytesPerSec := 176400,
      NBlockAlign := 4, WBitsPerSample := 16, CbSize := 20 }]

/-- Four buffers of 4096 bytes at distinct addresses. -/
def bufA : ByteSlice := { ptr := 0x10000, len := 4096 }
/-- Second example buffer. -/
def bufB : ByteSlice := { ptr := 0x20000, len := 4096 }
/-- Third example buffer. -/
def bufC : ByteSlice := { ptr := 0x30000, len := 4096 }
/-- Fourth example buffer. -/
def bufD : ByteSlice := { ptr := 0x40000, len := 4096 }

/-! ## Derived states and the invariant of a run -/

/-- The slot contents after `Write` has bound `data` to a slot. -/
def boundSlot (s : WaveOutData) (data : ByteSlice) : WaveOutData :=
  { hdr := { s.hdr with LpData := data.ptr, DwBufferLength := data.len % 2 ^ 32 },
    data := data }

/-- The receiver after `Write` has taken slot `i` from the head of the queue,
leaving `rest`, and bound `data` to it. -/
def writtenState (w : WaveOut) (i : Fin 3) (rest : List Ptr) (data : ByteSlice) : WaveOut :=
  { w with buffers := w.buffers.set i (boundSlot (w.buffers.get i) data),
           available := { w.available with buf := rest } }

/-- The two winmm calls of a `Write` that binds `data` to slot `i`. -/
def writeCalls (w : WaveOut) (i : Fin 3) (data : ByteSlice) : List DevCall :=
  [DevCall.waveOutPrepareHeader w.handle i (boundSlot (w.buffers.get i) data).hdr sizeofWAVEHDR,
   DevCall.waveOutWrite w.handle i (boundSlot (w.buffers.get i) data).hdr sizeofWAVEHDR]

/-- The ring after a `Write` that took slot `i` and left `rest` in the queue. -/
def Ring.afterWrite (r : Ring) (i : Fin 3) (rest : List Ptr) (data : ByteSlice) : Ring :=
  { w := writtenState r.w i rest data, inflight := r.inflight ++ [i],
    issued := r.issued ++ [i], log := r.log ++ writeCalls r.w i data }

/-- The ring after an `IsHeaderFinished` that returned false. -/
def Ring.afterStillPlaying (r : Ring) (h : Fin 3) : Ring :=
  { r with log := r.log ++
      [DevCall.waveOutUnprepareHeader r.w.handle h (r.w.buffers.get h).hdr sizeofWAVEHDR] }

/-- The ring after an `IsHeaderFinished` that returned true. -/
def Ring.afterReclaim (r : Ring) (h : Fin 3) : Ring :=
  { r with
    w := { r.w with available := { r.w.available with buf := r.w.available.buf ++ [some h] } },
    inflight := r.inflight.erase h,
    log := r.log ++
      [DevCall.waveOutUnprepareHeader r.w.handle h (r.w.buffers.get h).hdr sizeofWAVEHDR] }

/-- The invariant of a run: the channel is open with capacity 3, the queue
followed by the handles in flight is a rearrangement of the three slots, and
every slot in flight is bound to non-empty data. -/
structure Ring.Inv (r : Ring) : Prop where
  isOpen : r.w.available.closed = false
  cap : r.w.available.cap = 3
  perm : List.Perm (r.w.available.buf ++ r.inflight.map some) [some 0, some 1, some 2]
  bound : ∀ h ∈ r.inflight, (r.w.buffers.get h).data.len ≠ 0

/-- The ring after `New(2, 44100, 16)`, `Write(bufA)`, `Write(bufB)` and an
`IsHeaderFinished` on the first handle that the device answers with 0. -/
def exampleRing : Ring :=
  { w := { handle := 1,
           buffers :=
             { b0 := boundSlot exampleWaveOut.buffers.b0 bufA,
               b1 := boundSlot exampleWaveOut.buffers.b1 bufB,
               b2 := exampleWaveOut.buffers.b2 },
           available := { cap := 3, buf := [some 2, some 0], closed := false } },
    inflight := [1],
    issued := [0, 1],
    log := exampleOpen ++ writeCalls exampleWaveOut 0 bufA ++
      [DevCall.waveOutPrepareHeader 1 1 (boundSlot exampleWaveOut.buffers.b1 bufB).hdr 48,
       DevCall.waveOutWrite 1 1 (boundSlot exampleWaveOut.buffers.b1 bufB).hdr 48,
       DevCall.waveOutUnprepareHeader 1 0 (boundSlot exampleWaveOut.buffers.b0 bufA).hdr 48] }

/-- The receiver after `New(2, 44100, 16)` and three `Write` calls: every slot
is in flight and the queue is empty. -/
def exampleFull : WaveOut :=
  writtenState (writtenState (writtenState exampleWaveOut 0 [some 1, some 2] bufA)
    1 [some 2] bufB) 2 [] bufC

/-- The receiver `exampleFull` after `Close`. -/
def exampleClosed : WaveOut :=
  { exampleFull with handle := 0, available := { exampleFull.available with closed := true } }

/-- The descriptor `Write` stores for `data` in the slot header: `LpData` and
`DwBufferLength`, the latter a 32-bit field. -/
def descriptorOf (data : ByteSlice) : Nat × Nat := (data.ptr, data.len % 2 ^ 32)

/-- The ring after `Write(A)`, `Write(B)`, `Write(C)`, a reclaim of slot 0 and
`Write(D)`, started on the ring `r`. -/
def Ring.afterABCD (r : Ring) (A B C D : ByteSlice) : Ring :=
  ((((r.afterWrite 0 [some 1, some 2] A).afterWrite 1 [some 2] B).afterWrite 2 [] C).afterReclaim
    0).afterWrite 0 [] D

/-- The ring after `New(2, 44100, 16)` and `Write(bufA)`. -/
def exampleRingA : Ring :=
  (Ring.start exampleWaveOut exampleOpen).afterWrite 0 [some 1, some 2] bufA

/-! ## Lemmas and theorems -/

theorem Buffers.get_set (b : Buffers) (i j : Fin 3) (v : WaveOutData) :
    (b.set i v).get j = if j = i then v else b.get j := by
  fin_cases i <;> fin_cases j <;> rfl

theorem Buffers.set_set (b : Buffers) (i : Fin 3) (u v : WaveOutData) :
    (b.set i u).set i v = b.set i v := by
  fin_cases i <;> rfl

theorem Write_head (w : WaveOut) (data : ByteSlice) (p q : Nat) (i : Fin 3) (rest : List Ptr)
    (hb : w.available.buf = some i :: rest) (hd : data.len ≠ 0) :
    Write w data p q = .ret (writtenState w i rest data) (some i) (writeCalls w i data) := by
  simp [Write, Chan.recv, hb, hd, writtenState, writeCalls, boundSlot, Buffers.get_set,
    Buffers.set_set]

theorem Write_empty_data (w : WaveOut) (data : ByteSlice) (p q : Nat) (i : Fin 3)
    (rest : List Ptr) (hb : w.available.buf = some i :: rest) (hd : data.len = 0) :
    Write w data p q =
      .panic { w with buffers := w.buffers.set i { w.buffers.get i with data := data },
                      available := { w.available with buf := rest } } []
        .indexOutOfRange := by
  simp [Write, Chan.recv, hb, hd]

theorem Write_empty_open (w : WaveOut) (data : ByteSlice) (p q : Nat)
    (hb : w.available.buf = []) (hc : w.available.closed = false) :
    Write w data p q = .blocked w [] := by
  simp [Write, Chan.recv, hb, hc]

theorem Write_empty_closed (w : WaveOut) (data : ByteSlice) (p q : Nat)
    (hb : w.available.buf = []) (hc : w.available.closed = true) :
    Write w data p q = .panic w [] .nilDereference := by
  simp [Write, Chan.recv, hb, hc]

theorem Write_ret_inv {w : WaveOut} {data : ByteSlice} {p q : Nat} {w1 : WaveOut} {v : Ptr}
    {calls : List DevCall} (h : Write w data p q = .ret w1 v calls) :
    ∃ i rest, w.available.buf = some i :: rest ∧ data.len ≠ 0 ∧ v = some i ∧
      w1 = writtenState w i rest data ∧ calls = writeCalls w i data := by
  rcases hb : w.available.buf with _ | ⟨x, rest⟩
  · cases hc : w.available.closed
    · rw [Write_empty_open w data p q hb hc] at h
      cases h
    · rw [Write_empty_closed w data p q hb hc] at h
      cases h
  · rcases x with _ | i
    · simp [Write, Chan.recv, hb] at h
    · by_cases hd : data.len = 0
      · simp [Write, Chan.recv, hb, hd] at h
      · rw [Write_head w data p q i rest hb hd] at h
        simp only [Outcome.ret.injEq] at h
        exact ⟨i, rest, rfl, hd, h.2.1.symm, h.1.symm, h.2.2.symm⟩

theorem IsHeaderFinished_stillPlaying (w : WaveOut) (h : Fin 3) :
    IsHeaderFinished w (some h) WAVERR_STILLPLAYING = .ret w false
      [DevCall.waveOutUnprepareHeader w.handle h (w.buffers.get h).hdr sizeofWAVEHDR] := by
  simp [IsHeaderFinished]

theorem IsHeaderFinished_reclaim (w : WaveOut) (h : Fin 3) (result : Nat)
    (hr : result ≠ WAVERR_STILLPLAYING) (hc : w.available.closed = false)
    (hl : w.available.buf.length < w.available.cap) :
    IsHeaderFinished w (some h) result =
      .ret { w with available := { w.available with buf := w.available.buf ++ [some h] } } true
        [DevCall.waveOutUnprepareHeader w.handle h (w.buffers.get h).hdr sizeofWAVEHDR] := by
  simp [IsHeaderFinished, hr, Chan.send, hc, hl]

theorem IsHeaderFinished_full (w : WaveOut) (h : Fin 3) (result : Nat)
    (hr : result ≠ WAVERR_STILLPLAYING) (hc : w.available.closed = false)
    (hl : ¬ w.available.buf.length < w.available.cap) :
    IsHeaderFinished w (some h) result =
      .blocked w [DevCall.waveOutUnprepareHeader w.handle h (w.buffers.get h).hdr sizeofWAVEHDR] := by
  simp [IsHeaderFinished, hr, Chan.send, hc, hl]

theorem IsHeaderFinished_closed (w : WaveOut) (h : Fin 3) (result : Nat)
    (hr : result ≠ WAVERR_STILLPLAYING) (hc : w.available.closed = true) :
    IsHeaderFinished w (some h) result =
      .panic w [DevCall.waveOutUnprepareHeader w.handle h (w.buffers.get h).hdr sizeofWAVEHDR]
        .sendOnClosedChannel := by
  simp [IsHeaderFinished, hr, Chan.send, hc]

theorem IsHeaderFinished_ret_inv {w : WaveOut} {h : Fin 3} {result : Nat} {w1 : WaveOut}
    {v : Bool} {calls : List DevCall} (he : IsHeaderFinished w (some h) result = .ret w1 v calls) :
    (v = false ∧ result = WAVERR_STILLPLAYING ∧ w1 = w) ∨
    (v = true ∧ result ≠ WAVERR_STILLPLAYING ∧ w1.buffers = w.buffers ∧ w1.handle = w.handle ∧
      w1.available = { w.available with buf := w.available.buf ++ [some h] }) := by
  by_cases hr : result = WAVERR_STILLPLAYING
  · subst hr
    rw [IsHeaderFinished_stillPlaying] at he
    simp only [Outcome.ret.injEq] at he
    exact Or.inl ⟨he.2.1.symm, rfl, he.1.symm⟩
  · right
    cases hc : w.available.closed
    · by_cases hl : w.available.buf.length < w.available.cap
      · rw [IsHeaderFinished_reclaim w h result hr hc hl] at he
        simp only [Outcome.ret.injEq] at he
        obtain ⟨h1, h2, -⟩ := he
        subst h1
        exact ⟨h2.symm, hr, rfl, rfl, rfl⟩
      · rw [IsHeaderFinished_full w h result hr hc hl] at he
        cases he
    · rw [IsHeaderFinished_closed w h result hr hc] at he
      cases he

theorem newLoop_fresh : newLoop WaveOut.fresh = some { exampleWaveOut with handle := 0 } := by
  decide

theorem New_eq (channels samplesPerSec bitsPerSample : Int) (openResult phwo : Nat) :
    New channels samplesPerSec bitsPerSample openResult phwo =
      if openResult ≠ 0 then
        .failed openResult [DevCall.waveOutOpen WAVE_MAPPER (mkFormat channels samplesPerSec bitsPerSample)]
      else
        .created { exampleWaveOut with handle := phwo }
          [DevCall.waveOutOpen WAVE_MAPPER (mkFormat channels samplesPerSec bitsPerSample)] := by
  simp only [New, newLoop_fresh]

theorem New_created_inv {channels samplesPerSec bitsPerSample : Int} {openResult phwo : Nat}
    {w : WaveOut} {calls : List DevCall}
    (h : New channels samplesPerSec bitsPerSample openResult phwo = .created w calls) :
    openResult = 0 ∧ w = { exampleWaveOut with handle := phwo } ∧
      calls = [DevCall.waveOutOpen WAVE_MAPPER (mkFormat channels samplesPerSec bitsPerSample)] := by
  rw [New_eq] at h
  by_cases h0 : openResult = 0
  · simp only [h0, ne_eq, not_true_eq_false, if_false, NewOutcome.created.injEq] at h
    exact ⟨h0, h.1.symm, h.2.symm⟩
  · simp [h0] at h

theorem Ring.step_write_inv {r r1 : Ring} {data : ByteSlice} {p q : Nat}
    (hs : r.step (.write data p q) = some r1) :
    ∃ i rest, r.w.available.buf = some i :: rest ∧ data.len ≠ 0 ∧
      r1 = r.afterWrite i rest data := by
  simp only [Ring.step] at hs
  split at hs
  · rename_i w1 h calls hw
    obtain ⟨i, rest, hb, hd, hv, hw1, hcalls⟩ := Write_ret_inv hw
    simp only [Option.some.injEq] at hv hs
    subst hv hw1 hcalls
    exact ⟨h, rest, hb, hd, hs.symm⟩
  · cases hs

theorem Ring.step_poll_inv {r r1 : Ring} {h : Fin 3} {result : Nat}
    (hs : r.step (.isHeaderFinished h result) = some r1) :
    h ∈ r.inflight ∧
      ((result = WAVERR_STILLPLAYING ∧ r1 = r.afterStillPlaying h) ∨
       (result ≠ WAVERR_STILLPLAYING ∧ r.w.available.closed = false ∧
          r.w.available.buf.length < r.w.available.cap ∧ r1 = r.afterReclaim h)) := by
  simp only [Ring.step] at hs
  by_cases hm : h ∈ r.inflight
  · refine ⟨hm, ?_⟩
    simp only [hm, if_true] at hs
    by_cases hr : result = WAVERR_STILLPLAYING
    · subst hr
      rw [IsHeaderFinished_stillPlaying] at hs
      simp only [Option.some.injEq] at hs
      exact Or.inl ⟨rfl, hs.symm⟩
    · right
      cases hc : r.w.available.closed
      · by_cases hl : r.w.available.buf.length < r.w.available.cap
        · rw [IsHeaderFinished_reclaim r.w h result hr hc hl] at hs
          simp only [Option.some.injEq] at hs
          exact ⟨hr, rfl, hl, hs.symm⟩
        · rw [IsHeaderFinished_full r.w h result hr hc hl] at hs
          cases hs
      · rw [IsHeaderFinished_closed r.w h result hr hc] at hs
        cases hs
  · simp [hm] at hs

theorem Ring.Inv.length {r : Ring} (hi : r.Inv) :
    r.w.available.buf.length + r.inflight.length = 3 := by
  have := hi.perm.length_eq
  simpa using this

theorem Ring.Inv.nodup {r : Ring} (hi : r.Inv) :
    (r.w.available.buf ++ r.inflight.map some).Nodup :=
  hi.perm.nodup_iff.mpr (by decide)

theorem Ring.Inv.start (phwo : Nat) (calls : List DevCall) :
    (Ring.start { exampleWaveOut with handle := phwo } calls).Inv :=
  ⟨rfl, rfl, List.Perm.refl _, by intro h hh; cases hh⟩

theorem Ring.Inv.step {r r1 : Ring} {c : Call} (hi : r.Inv) (hs : r.step c = some r1) :
    r1.Inv := by
  cases c with
  | write data p q =>
    obtain ⟨i, rest, hb, hd, rfl⟩ := Ring.step_write_inv hs
    have hp := hi.perm
    rw [hb] at hp
    have hnd := hi.nodup
    rw [hb] at hnd
    refine ⟨hi.isOpen, hi.cap, ?_, ?_⟩
    · show List.Perm (rest ++ (r.inflight ++ [i]).map some) _
      refine List.Perm.trans ?_ hp
      simp only [List.map_append, List.map_cons, List.map_nil, List.cons_append]
      rw [← List.append_assoc]
      exact List.perm_append_singleton _ _
    · intro h hh
      show ((r.w.buffers.set i (boundSlot (r.w.buffers.get i) data)).get h).data.len ≠ 0
      rw [Buffers.get_set]
      by_cases hhi : h = i
      · simpa [hhi, boundSlot] using hd
      · simp only [hhi, if_false]
        have hh1 : h ∈ r.inflight ++ [i] := hh
        rcases List.mem_append.mp hh1 with hm | hm
        · exact hi.bound h hm
        · exact absurd (List.mem_singleton.mp hm) hhi
  | isHeaderFinished h result =>
    obtain ⟨hm, hcase⟩ := Ring.step_poll_inv hs
    rcases hcase with ⟨-, rfl⟩ | ⟨-, -, -, rfl⟩
    · exact ⟨hi.isOpen, hi.cap, hi.perm, hi.bound⟩
    · refine ⟨hi.isOpen, hi.cap, ?_, ?_⟩
      · show List.Perm ((r.w.available.buf ++ [some h]) ++ (r.inflight.erase h).map some) _
        refine List.Perm.trans ?_ hi.perm
        rw [List.append_assoc]
        refine List.Perm.append_left _ ?_
        have := (List.perm_cons_erase hm).map (some : Fin 3 → Ptr)
        simpa using this.symm
      · intro k hk
        exact hi.bound k (List.mem_of_mem_erase hk)

theorem Ring.step_write (r : Ring) (data : ByteSlice) (p q : Nat) (i : Fin 3) (rest : List Ptr)
    (hb : r.w.available.buf = some i :: rest) (hd : data.len ≠ 0) :
    r.step (.write data p q) = some (r.afterWrite i rest data) := by
  simp only [Ring.step, Write_head r.w data p q i rest hb hd]
  rfl

theorem Ring.step_reclaim (r : Ring) (h : Fin 3) (result : Nat) (hm : h ∈ r.inflight)
    (hne : result ≠ WAVERR_STILLPLAYING) (hc : r.w.available.closed = false)
    (hl : r.w.available.buf.length < r.w.available.cap) :
    r.step (.isHeaderFinished h result) = some (r.afterReclaim h) := by
  simp only [Ring.step, hm, if_true, IsHeaderFinished_reclaim r.w h result hne hc hl]
  rfl

theorem Ring.step_stillPlaying (r : Ring) (h : Fin 3) (hm : h ∈ r.inflight) :
    r.step (.isHeaderFinished h WAVERR_STILLPLAYING) = some (r.afterStillPlaying h) := by
  simp only [Ring.step, hm, if_true, IsHeaderFinished_stillPlaying]
  rfl

theorem Ring.Inv.no_nil {r : Ring} (hi : r.Inv) : none ∉ r.w.available.buf := by
  intro hmem
  have h1 : none ∈ r.w.available.buf ++ r.inflight.map some := List.mem_append_left _ hmem
  have h2 := hi.perm.subset h1
  revert h2
  decide

theorem Ring.run_nil (r : Ring) : r.run [] = some r := rfl

theorem Ring.run_cons (r : Ring) (c : Call) (cs : List Call) :
    r.run (c :: cs) = (r.step c).bind fun r1 => r1.run cs := by
  simp [Ring.run, List.foldlM_cons]

theorem Ring.Inv.run {cs : List Call} : ∀ {r r1 : Ring}, r.Inv → r.run cs = some r1 → r1.Inv := by
  induction cs with
  | nil =>
    intro r r1 hi hr
    rw [Ring.run_nil] at hr
    cases hr
    exact hi
  | cons c cs ih =>
    intro r r1 hi hr
    rw [Ring.run_cons] at hr
    cases hs : r.step c with
    | none => rw [hs] at hr; cases hr
    | some r2 =>
      rw [hs] at hr
      exact ih (hi.step hs) hr

theorem Ring.inflight_persists {h : Fin 3} {cs : List Call} :
    ∀ {r r1 : Ring}, r.run cs = some r1 → h ∈ r.inflight →
      (∀ result, Call.isHeaderFinished h result ∈ cs → result = WAVERR_STILLPLAYING) →
      h ∈ r1.inflight := by
  induction cs with
  | nil =>
    intro r r1 hr hm _
    rw [Ring.run_nil] at hr
    cases hr
    exact hm
  | cons c cs ih =>
    intro r r1 hr hm hno
    rw [Ring.run_cons] at hr
    cases hs : r.step c with
    | none => rw [hs] at hr; cases hr
    | some r2 =>
      rw [hs] at hr
      refine ih hr ?_ (fun result hin => hno result (List.mem_cons_of_mem _ hin))
      cases c with
      | write data p q =>
        obtain ⟨i, rest, -, -, rfl⟩ := Ring.step_write_inv hs
        exact List.mem_append_left _ hm
      | isHeaderFinished k result =>
        obtain ⟨-, hcase⟩ := Ring.step_poll_inv hs
        rcases hcase with ⟨-, rfl⟩ | ⟨hne, -, -, rfl⟩
        · exact hm
        · have hkh : h ≠ k := by
            intro hkh
            subst hkh
            exact hne (hno result (List.mem_cons_self _ _))
          exact (List.mem_erase_of_ne hkh).mpr hm

theorem Reachable.inv {r : Ring} (h : Reachable r) : r.Inv := by
  obtain ⟨c, s, b, o, p, w, calls, cs, hn, hr⟩ := h
  obtain ⟨-, rfl, -⟩ := New_created_inv hn
  exact (Ring.Inv.start p calls).run hr

theorem exampleRing_reachable : Reachable exampleRing :=
  ⟨2, 44100, 16, 0, 1, exampleWaveOut, exampleOpen,
    [.write bufA 0 0, .write bufB 0 0, .isHeaderFinished 0 0], by decide, by decide⟩

/-- C1, capacity invariant. In every state reachable from `New` by calls of
`Write` and `IsHeaderFinished` under the handle contract, the number of slots
in the availability queue plus the number of slots in flight is 3, and the
slots in flight are pairwise distinct, so the list counts slots. The runs lose
no call that respects the preconditions: in such a state a `Write` of non-empty
data either returns or parks on the empty queue, and an `IsHeaderFinished` on a
handle in flight returns. -/
theorem capacity_invariant (r : Ring) (h : Reachable r) :
    r.w.available.buf.length + r.inflight.length = 3 ∧ r.inflight.Nodup ∧
    (∀ data p q, data.len ≠ 0 →
      (∃ r1, r.step (.write data p q) = some r1) ∨
        (r.w.available.buf = [] ∧ Write r.w data p q = .blocked r.w [])) ∧
    (∀ k ∈ r.inflight, ∀ result, ∃ r1, r.step (.isHeaderFinished k result) = some r1) := by
  have hi := h.inv
  refine ⟨hi.length, ?_, ?_, ?_⟩
  · have hnd := (List.nodup_append.mp hi.nodup).2.1
    exact List.Nodup.of_map _ hnd
  · intro data p q hd
    rcases hb : r.w.available.buf with _ | ⟨x, rest⟩
    · exact Or.inr ⟨rfl, Write_empty_open r.w data p q hb hi.isOpen⟩
    · rcases x with _ | i
      · exact absurd (hb ▸ List.mem_cons_self _ _) hi.no_nil
      · exact Or.inl ⟨_, Ring.step_write r data p q i rest hb hd⟩
  · intro k hk result
    by_cases hr : result = WAVERR_STILLPLAYING
    · subst hr
      exact ⟨_, Ring.step_stillPlaying r k hk⟩
    · have hlen := hi.length
      have hpos : 0 < r.inflight.length := List.length_pos_of_mem hk
      refine ⟨_, Ring.step_reclaim r k result hk hr hi.isOpen ?_⟩
      rw [hi.cap]
      omega

theorem capacity_invariant_witness :
    Reachable exampleRing ∧
      exampleRing.w.available.buf.length + exampleRing.inflight.length = 3 ∧
      exampleRing.inflight.Nodup :=
  ⟨exampleRing_reachable, (capacity_invariant exampleRing exampleRing_reachable).1,
    (capacity_invariant exampleRing exampleRing_reachable).2.1⟩

/-- C2, no double issue. In every reachable state the availability queue holds
no slot twice, holds no slot that is in flight and holds no nil pointer, and a
`Write` that returns there returns a slot that is not in flight. Hence, along a
run, when a `Write` returns handle `h` and a later `Write` returns `h` again,
some `IsHeaderFinished` call on `h` in between was answered with a status other
than WAVERR_STILLPLAYING, that is, returned true. -/
theorem no_double_issue (r : Ring) (hr : Reachable r) :
    r.w.available.buf.Nodup ∧
    (∀ s ∈ r.inflight, some s ∉ r.w.available.buf) ∧
    none ∉ r.w.available.buf ∧
    (∀ data p q w1 v calls, Write r.w data p q = .ret w1 v calls →
      ∃ s, v = some s ∧ s ∉ r.inflight) ∧
    (∀ d1 p1 q1 w1 c1 h r1 mid r2 d2 p2 q2 w3 c3,
      Write r.w d1 p1 q1 = .ret w1 (some h) c1 →
      r.step (.write d1 p1 q1) = some r1 →
      r1.run mid = some r2 →
      Write r2.w d2 p2 q2 = .ret w3 (some h) c3 →
      ∃ result, result ≠ WAVERR_STILLPLAYING ∧ Call.isHeaderFinished h result ∈ mid) := by
  have key : ∀ r : Ring, r.Inv → ∀ data p q w1 v calls,
      Write r.w data p q = .ret w1 v calls → ∃ s, v = some s ∧ s ∉ r.inflight := by
    intro r hi data p q w1 v calls hw
    obtain ⟨i, rest, hb, -, hv, -, -⟩ := Write_ret_inv hw
    refine ⟨i, hv, fun hm => ?_⟩
    have hnd := hi.nodup
    rw [hb] at hnd
    have hdis := (List.nodup_append.mp hnd).2.2
    exact hdis (List.mem_cons_self _ _) (List.mem_map_of_mem some hm)
  have hi := hr.inv
  have hnd := List.nodup_append.mp hi.nodup
  refine ⟨hnd.1, ?_, ?_, key r hi, ?_⟩
  · intro s hs hmem
    exact hnd.2.2 hmem (List.mem_map_of_mem some hs)
  · exact hi.no_nil
  · intro d1 p1 q1 w1 c1 h r1 mid r2 d2 p2 q2 w3 c3 hw1 hs hrun hw3
    by_contra hcon
    push_neg at hcon
    obtain ⟨i, rest, hb, hd, rfl⟩ := Ring.step_write_inv hs
    obtain ⟨i1, rest1, hb1, -, hv1, -, -⟩ := Write_ret_inv hw1
    rw [hb] at hb1
    simp only [List.cons.injEq, Option.some.injEq] at hb1 hv1
    have hih : i = h := by rw [hv1]; exact hb1.1
    subst hih
    have hm1 : i ∈ (r.afterWrite i rest d1).inflight := List.mem_append_right _ (List.mem_singleton_self _)
    have hm2 : i ∈ r2.inflight :=
      Ring.inflight_persists hrun hm1 (fun result hin => by
        by_contra hne
        exact hcon result hne hin)
    have hi1 : (r.afterWrite i rest d1).Inv := hi.step hs
    have hi2 : r2.Inv := hi1.run hrun
    obtain ⟨s, hs1, hs2⟩ := key r2 hi2 d2 p2 q2 w3 (some i) c3 hw3
    simp only [Option.some.injEq] at hs1
    subst hs1
    exact hs2 hm2

theorem no_double_issue_witness :
    Reachable exampleRing ∧ exampleRing.w.available.buf.Nodup ∧
      (∀ s ∈ exampleRing.inflight, some s ∉ exampleRing.w.available.buf) :=
  ⟨exampleRing_reachable, (no_double_issue exampleRing exampleRing_reachable).1,
    (no_double_issue exampleRing exampleRing_reachable).2.1⟩

/-- C3, completion idempotence on a still-playing slot. For every ring state
and every handle, when waveOutUnprepareHeader answers WAVERR_STILLPLAYING (33),
`IsHeaderFinished` returns false with the receiver unchanged (queue, slots,
device handle), its only device call being that query; and any number of
repeated calls return false each time and end in the initial state. -/
theorem still_playing_idempotent (w : WaveOut) (h : Fin 3) (n : Nat) :
    WAVERR_STILLPLAYING = 33 ∧
    IsHeaderFinished w (some h) 33 = .ret w false
      [DevCall.waveOutUnprepareHeader w.handle h (w.buffers.get h).hdr sizeofWAVEHDR] ∧
    pollStillPlaying w (some h) n = some (w, List.replicate n false) := by
  refine ⟨rfl, IsHeaderFinished_stillPlaying w h, ?_⟩
  induction n with
  | zero => rfl
  | succ n ih =>
    simp only [pollStillPlaying, IsHeaderFinished_stillPlaying, ih, Option.map_some',
      List.replicate_succ]

/-- C4, reclaim on any status other than still-playing. In every reachable
state, for every handle `h` in flight and every status other than
WAVERR_STILLPLAYING, the queue holds fewer than 3 slots, so the send does not
park, and `IsHeaderFinished` returns true with `h` appended at the tail of the
queue and nothing else changed. -/
theorem reclaim_on_other_status (r : Ring) (hr : Reachable r) (h : Fin 3)
    (hm : h ∈ r.inflight) (result : Nat) (hne : result ≠ WAVERR_STILLPLAYING) :
    r.w.available.buf.length < 3 ∧
    IsHeaderFinished r.w (some h) result =
      .ret { r.w with available := { r.w.available with buf := r.w.available.buf ++ [some h] } }
        true [DevCall.waveOutUnprepareHeader r.w.handle h (r.w.buffers.get h).hdr sizeofWAVEHDR] := by
  have hi := hr.inv
  have hlen := hi.length
  have hpos : 0 < r.inflight.length := List.length_pos_of_mem hm
  have hlt : r.w.available.buf.length < 3 := by omega
  refine ⟨hlt, IsHeaderFinished_reclaim r.w h result hne hi.isOpen ?_⟩
  rw [hi.cap]
  exact hlt

theorem reclaim_on_other_status_witness :
    Reachable exampleRing ∧ (1 : Fin 3) ∈ exampleRing.inflight ∧ (5 : Nat) ≠ WAVERR_STILLPLAYING ∧
    exampleRing.w.available.buf.length < 3 ∧
    IsHeaderFinished exampleRing.w (some 1) 5 =
      .ret { exampleRing.w with
              available := { exampleRing.w.available with
                buf := exampleRing.w.available.buf ++ [some 1] } }
        true [DevCall.waveOutUnprepareHeader exampleRing.w.handle 1
          (exampleRing.w.buffers.get 1).hdr sizeofWAVEHDR] :=
  ⟨exampleRing_reachable, by decide, by decide,
    reclaim_on_other_status exampleRing exampleRing_reachable 1 (by decide) 5 (by decide)⟩

theorem exampleFull_run :
    ((Ring.start exampleWaveOut exampleOpen).run
      [.write bufA 0 0, .write bufB 0 0, .write bufC 0 0]).map (fun r => r.w) =
      some exampleFull := by
  decide

theorem exampleClosed_close :
    Close exampleFull 0 = .ret exampleClosed () [DevCall.waveOutClose 1] := by
  decide

theorem Close_open (w : WaveOut) (closeResult : Nat) (hc : w.available.closed = false) :
    Close w closeResult =
      .ret { w with handle := 0, available := { w.available with closed := true } } ()
        (if w.handle ≠ 0 then [DevCall.waveOutClose w.handle] else []) := by
  by_cases hh : w.handle = 0
  · simp [Close, Chan.close, hc, hh]
  · simp [Close, Chan.close, hc, hh]

theorem Close_closed (w : WaveOut) (closeResult : Nat) (hc : w.available.closed = true) :
    Close w closeResult =
      .panic { w with handle := 0 } (if w.handle ≠ 0 then [DevCall.waveOutClose w.handle] else [])
        .closeOfClosedChannel := by
  by_cases hh : w.handle = 0
  · simp [Close, Chan.close, hc, hh]
    cases w
    simp_all
  · simp [Close, Chan.close, hc, hh]

/-- C5, as the code has it. For every ring state whose queue head is a slot
and every non-empty data, `Write` discards the statuses of
waveOutPrepareHeader and waveOutWrite: whatever they are, the call returns the
handle of the head slot as a successful submission does, reports no error, and
leaves the slot out of the queue, which is one shorter than before. -/
theorem write_discards_status (w : WaveOut) (data : ByteSlice) (p q : Nat) (i : Fin 3)
    (rest : List Ptr) (hb : w.available.buf = some i :: rest) (hd : data.len ≠ 0) :
    Write w data p q = .ret (writtenState w i rest data) (some i) (writeCalls w i data) ∧
    Write w data p q = Write w data 0 0 ∧
    (writtenState w i rest data).available.buf = rest ∧
    (writtenState w i rest data).available.buf.length + 1 = w.available.buf.length := by
  refine ⟨Write_head w data p q i rest hb hd, ?_, rfl, ?_⟩
  · rw [Write_head w data p q i rest hb hd, Write_head w data 0 0 i rest hb hd]
  · rw [hb]
    rfl

theorem write_discards_status_witness :
    exampleWaveOut.available.buf = some 0 :: [some 1, some 2] ∧ bufA.len ≠ 0 ∧
    Write exampleWaveOut bufA 11 11 =
      .ret (writtenState exampleWaveOut 0 [some 1, some 2] bufA) (some 0)
        (writeCalls exampleWaveOut 0 bufA) :=
  ⟨rfl, by decide,
    (write_discards_status exampleWaveOut bufA 11 11 0 [some 1, some 2] rfl (by decide)).1⟩

/-- C5, counterexample. On the ring of `New(2, 44100, 16)`, a `Write` of 4096
bytes during which the device rejects the prepare call, or the play call, with
status 11 returns handle 0 like a successful call, and the queue drops from 3
idle slots to 2. -/
theorem failed_submission_leaks_slot :
    Write exampleWaveOut bufA 11 0 =
      .ret (writtenState exampleWaveOut 0 [some 1, some 2] bufA) (some 0)
        (writeCalls exampleWaveOut 0 bufA) ∧
    Write exampleWaveOut bufA 0 11 =
      .ret (writtenState exampleWaveOut 0 [some 1, some 2] bufA) (some 0)
        (writeCalls exampleWaveOut 0 bufA) ∧
    exampleWaveOut.available.buf.length = 3 ∧
    (writtenState exampleWaveOut 0 [some 1, some 2] bufA).available.buf.length = 2 := by
  decide

/-- C6, what the code does on a double close. Whenever a first `Close`
returns, a second `Close` issues no waveOutClose command but panics on
`close(w.available)`, the channel being closed already. -/
theorem double_close_panics (w w1 : WaveOut) (c1 c2 : Nat) (calls : List DevCall)
    (h : Close w c1 = .ret w1 () calls) :
    Close w1 c2 = .panic w1 [] .closeOfClosedChannel := by
  cases hc : w.available.closed
  · rw [Close_open w c1 hc] at h
    simp only [Outcome.ret.injEq] at h
    obtain ⟨rfl, -, -⟩ := h
    rw [Close_closed _ c2 rfl]
    simp
  · rw [Close_closed w c1 hc] at h
    cases h

theorem double_close_panics_witness :
    Close exampleWaveOut 0 =
      .ret { exampleWaveOut with
              handle := 0, available := { exampleWaveOut.available with closed := true } } ()
        [DevCall.waveOutClose 1] ∧
    Close { exampleWaveOut with
              handle := 0, available := { exampleWaveOut.available with closed := true } } 0 =
      .panic { exampleWaveOut with
                handle := 0, available := { exampleWaveOut.available with closed := true } } []
        .closeOfClosedChannel :=
  ⟨by decide, double_close_panics exampleWaveOut _ 0 0 [DevCall.waveOutClose 1] (by decide)⟩

/-- C7, what the code does on a closed ring. For every ring whose queue is
empty and whose channel is closed, `Write` receives the nil pointer and panics
on the nil dereference at `wave.data = data`; it issues no device command and
returns nothing to the caller. -/
theorem closed_ring_write_panics (w : WaveOut) (data : ByteSlice) (p q : Nat)
    (hb : w.available.buf = []) (hc : w.available.closed = true) :
    Write w data p q = .panic w [] .nilDereference := by
  simp [Write, Chan.recv, hb, hc]

theorem closed_ring_write_panics_witness :
    exampleClosed.available.buf = [] ∧ exampleClosed.available.closed = true ∧
    Write exampleClosed bufD 0 0 = .panic exampleClosed [] .nilDereference :=
  ⟨rfl, rfl, closed_ring_write_panics exampleClosed bufD 0 0 rfl rfl⟩

/-- C10, counterexample. On the ring of `New(2, 44100, 16)`, `Write(bufA)`
returns handle 0; an `IsHeaderFinished` on it that the device answers with 0
returns true and puts slot 0 at the tail of the queue, and slot 0 still holds
the 4096 bytes of `bufA` and their descriptor. -/
theorem reclaim_leaves_data_bound :
    Write exampleWaveOut bufA 0 0 =
      .ret (writtenState exampleWaveOut 0 [some 1, some 2] bufA) (some 0)
        (writeCalls exampleWaveOut 0 bufA) ∧
    IsHeaderFinished (writtenState exampleWaveOut 0 [some 1, some 2] bufA) (some 0) 0 =
      .ret (writtenState exampleWaveOut 0 [some 1, some 2, some 0] bufA) true
        [DevCall.waveOutUnprepareHeader 1 0 (boundSlot exampleWaveOut.buffers.b0 bufA).hdr 48] ∧
    ((writtenState exampleWaveOut 0 [some 1, some 2, some 0] bufA).buffers.get 0).data =
      { ptr := 0x10000, len := 4096 } ∧
    ((writtenState exampleWaveOut 0 [some 1, some 2, some 0] bufA).buffers.get 0).hdr.LpData =
      0x10000 ∧
    some 0 ∈ (writtenState exampleWaveOut 0 [some 1, some 2, some 0] bufA).available.buf := by
  decide

theorem playsOf_append (a b : List DevCall) : playsOf (a ++ b) = playsOf a ++ playsOf b := by
  simp [playsOf, List.filterMap_append]

theorem playsOf_writeCalls (w : WaveOut) (i : Fin 3) (data : ByteSlice) :
    playsOf (writeCalls w i data) = [descriptorOf data] := by
  simp [playsOf, writeCalls, boundSlot, descriptorOf, List.filterMap_cons]

theorem playsOf_unprepare (hwo : Nat) (slot : Fin 3) (pwh : WAVEHDR) (cbwh : Nat) :
    playsOf [DevCall.waveOutUnprepareHeader hwo slot pwh cbwh] = [] := rfl

theorem Ring.run_plays {cs : List Call} : ∀ {r r1 : Ring}, r.run cs = some r1 →
    playsOf r1.log = playsOf r.log ++ (writesOf cs).map descriptorOf ∧
    r1.issued.length = r.issued.length + (writesOf cs).length := by
  induction cs with
  | nil =>
    intro r r1 hr
    rw [Ring.run_nil] at hr
    cases hr
    simp [writesOf]
  | cons c cs ih =>
    intro r r1 hr
    rw [Ring.run_cons] at hr
    cases hs : r.step c with
    | none => rw [hs] at hr; cases hr
    | some r2 =>
      rw [hs] at hr
      obtain ⟨h1, h2⟩ := ih hr
      cases c with
      | write data p q =>
        obtain ⟨i, rest, -, -, rfl⟩ := Ring.step_write_inv hs
        constructor
        · rw [h1]
          simp [Ring.afterWrite, playsOf_append, playsOf_writeCalls, writesOf,
            List.filterMap_cons]
        · rw [h2]
          simp [Ring.afterWrite, writesOf, List.filterMap_cons]
          omega
      | isHeaderFinished k result =>
        obtain ⟨-, hcase⟩ := Ring.step_poll_inv hs
        rcases hcase with ⟨-, rfl⟩ | ⟨-, -, -, rfl⟩
        · constructor
          · rw [h1]
            simp [Ring.afterStillPlaying, playsOf_append, writesOf, List.filterMap_cons,
              playsOf_unprepare]
          · rw [h2]
            simp [Ring.afterStillPlaying, writesOf, List.filterMap_cons]
        · constructor
          · rw [h1]
            simp [Ring.afterReclaim, playsOf_append, writesOf, List.filterMap_cons,
              playsOf_unprepare]
          · rw [h2]
            simp [Ring.afterReclaim, writesOf, List.filterMap_cons]

theorem Ring.scenario (phwo : Nat) (calls : List DevCall) (A B C D : ByteSlice)
    (hA : A.len ≠ 0) (hB : B.len ≠ 0) (hC : C.len ≠ 0) (hD : D.len ≠ 0)
    (p1 q1 p2 q2 p3 q3 p4 q4 result : Nat) (hne : result ≠ WAVERR_STILLPLAYING) :
    ∃ r, (Ring.start { exampleWaveOut with handle := phwo } calls).run
        [.write A p1 q1, .write B p2 q2, .write C p3 q3, .isHeaderFinished 0 result,
         .write D p4 q4] = some r ∧
      r.issued = [0, 1, 2, 0] ∧ r.inflight = [1, 2, 0] ∧ r.w.available.buf = [] ∧
      (r.w.buffers.get 0).data = D ∧ (r.w.buffers.get 1).data = B ∧
      (r.w.buffers.get 2).data = C ∧
      playsOf r.log = playsOf calls ++
        [descriptorOf A, descriptorOf B, descriptorOf C, descriptorOf D] := by
  have hrun : (Ring.start { exampleWaveOut with handle := phwo } calls).run
      [.write A p1 q1, .write B p2 q2, .write C p3 q3, .isHeaderFinished 0 result,
       .write D p4 q4] =
      some ((Ring.start { exampleWaveOut with handle := phwo } calls).afterABCD A B C D) := by
    rw [Ring.run_cons, Ring.step_write _ A p1 q1 0 [some 1, some 2] rfl hA, Option.some_bind,
      Ring.run_cons, Ring.step_write _ B p2 q2 1 [some 2] rfl hB, Option.some_bind,
      Ring.run_cons, Ring.step_write _ C p3 q3 2 [] rfl hC, Option.some_bind,
      Ring.run_cons, Ring.step_reclaim _ 0 result (by show (0 : Fin 3) ∈ [0, 1, 2]; decide) hne rfl
        (by show ([] : List Ptr).length < 3; decide),
      Option.some_bind,
      Ring.run_cons, Ring.step_write _ D p4 q4 0 [] rfl hD, Option.some_bind, Ring.run_nil]
    rfl
  exact ⟨_, hrun, rfl, rfl, rfl, rfl, rfl, rfl, (Ring.run_plays hrun).1⟩

theorem toUint16_natCast (n : Nat) : toUint16 (n : Int) = n % 2 ^ 16 := by
  unfold toUint16
  omega

theorem toUint32_natCast (n : Nat) : toUint32 (n : Int) = n % 2 ^ 32 := by
  unfold toUint32
  omega

theorem wrapInt_of_inRange (x : Int) (h0 : 0 ≤ x) (h : x < 2 ^ 63) : wrapInt x = x := by
  unfold wrapInt
  omega

theorem blockAlign_natCast (c b : Nat) (h : c * b < 2 ^ 63) :
    toUint16 (Int.tdiv (wrapInt ((c : Int) * (b : Int))) 8) = (c * b / 8) % 2 ^ 16 := by
  have h0 : (0 : Int) ≤ ((c * b : Nat) : Int) := Int.ofNat_nonneg _
  have h1 : ((c * b : Nat) : Int) < 2 ^ 63 := by exact_mod_cast h
  rw [← Nat.cast_mul, wrapInt_of_inRange _ h0 h1, Int.tdiv_eq_ediv h0 (by decide)]
  unfold toUint16
  omega

theorem mkFormat_NBlockAlign (c s b : Int) :
    (mkFormat c s b).NBlockAlign = toUint16 (Int.tdiv (wrapInt (c * b)) 8) := rfl

theorem mkFormat_NSamplesPerSec (c s b : Int) :
    (mkFormat c s b).NSamplesPerSec = toUint32 s := rfl

theorem mkFormat_NChannels (c s b : Int) : (mkFormat c s b).NChannels = toUint16 c := rfl

theorem mkFormat_WBitsPerSample (c s b : Int) :
    (mkFormat c s b).WBitsPerSample = toUint16 b := rfl

theorem mkFormat_NAvgBytesPerSec (c s b : Int) :
    (mkFormat c s b).NAvgBytesPerSec =
      ((mkFormat c s b).NSamplesPerSec * ((mkFormat c s b).NBlockAlign % 2 ^ 32)) % 2 ^ 32 := rfl

theorem mkFormat_WFormatTag (c s b : Int) : (mkFormat c s b).WFormatTag = 1 := rfl

/-- C9, as the code has it. For every channels, sampleRate and bitsPerSample
of at least 1 whose product channels × bitsPerSample does not overflow the
64-bit `int`, the one device call of `New` is waveOutOpen on the default
device with a format whose tag is PCM = 1 and whose fields are the values
reduced to the field widths: NChannels = channels mod 2^16, NSamplesPerSec =
sampleRate mod 2^32, WBitsPerSample = bitsPerSample mod 2^16, NBlockAlign =
(channels × bitsPerSample / 8) mod 2^16 and NAvgBytesPerSec = (NSamplesPerSec ×
NBlockAlign) mod 2^32. When channels and bitsPerSample are below 2^16,
sampleRate is below 2^32, channels × bitsPerSample / 8 is below 2^16 and
sampleRate × (channels × bitsPerSample / 8) is below 2^32, the three inputs are
stored unchanged, the block alignment is channels × bitsPerSample / 8 and the
byte rate is sampleRate × block alignment. -/
theorem format_values (channels sampleRate bitsPerSample : Nat) (openResult phwo : Nat)
    (_hc : 1 ≤ channels) (_hs : 1 ≤ sampleRate) (_hb : 1 ≤ bitsPerSample)
    (hov : channels * bitsPerSample < 2 ^ 63) :
    (New channels sampleRate bitsPerSample openResult phwo).calls =
      [DevCall.waveOutOpen WAVE_MAPPER (mkFormat channels sampleRate bitsPerSample)] ∧
    (mkFormat channels sampleRate bitsPerSample).WFormatTag = 1 ∧
    (mkFormat channels sampleRate bitsPerSample).NChannels = channels % 2 ^ 16 ∧
    (mkFormat channels sampleRate bitsPerSample).NSamplesPerSec = sampleRate % 2 ^ 32 ∧
    (mkFormat channels sampleRate bitsPerSample).WBitsPerSample = bitsPerSample % 2 ^ 16 ∧
    (mkFormat channels sampleRate bitsPerSample).NBlockAlign =
      (channels * bitsPerSample / 8) % 2 ^ 16 ∧
    (mkFormat channels sampleRate bitsPerSample).NAvgBytesPerSec =
      ((sampleRate % 2 ^ 32) * (mkFormat channels sampleRate bitsPerSample).NBlockAlign) % 2 ^ 32 ∧
    (channels < 2 ^ 16 → bitsPerSample < 2 ^ 16 → sampleRate < 2 ^ 32 →
      channels * bitsPerSample / 8 < 2 ^ 16 →
      sampleRate * (channels * bitsPerSample / 8) < 2 ^ 32 →
      (mkFormat channels sampleRate bitsPerSample).NChannels = channels ∧
      (mkFormat channels sampleRate bitsPerSample).NSamplesPerSec = sampleRate ∧
      (mkFormat channels sampleRate bitsPerSample).WBitsPerSample = bitsPerSample ∧
      (mkFormat channels sampleRate bitsPerSample).NBlockAlign = channels * bitsPerSample / 8 ∧
      (mkFormat channels sampleRate bitsPerSample).NAvgBytesPerSec =
        sampleRate * (channels * bitsPerSample / 8)) := by
  have hblock : (mkFormat channels sampleRate bitsPerSample).NBlockAlign =
      (channels * bitsPerSample / 8) % 2 ^ 16 := by
    rw [mkFormat_NBlockAlign, blockAlign_natCast channels bitsPerSample hov]
  have hrate : (mkFormat channels sampleRate bitsPerSample).NSamplesPerSec =
      sampleRate % 2 ^ 32 := by
    rw [mkFormat_NSamplesPerSec, toUint32_natCast]
  have hchan : (mkFormat channels sampleRate bitsPerSample).NChannels = channels % 2 ^ 16 := by
    rw [mkFormat_NChannels, toUint16_natCast]
  have hbits : (mkFormat channels sampleRate bitsPerSample).WBitsPerSample =
      bitsPerSample % 2 ^ 16 := by
    rw [mkFormat_WBitsPerSample, toUint16_natCast]
  have havg : (mkFormat channels sampleRate bitsPerSample).NAvgBytesPerSec =
      ((sampleRate % 2 ^ 32) * (mkFormat channels sampleRate bitsPerSample).NBlockAlign)
        % 2 ^ 32 := by
    rw [mkFormat_NAvgBytesPerSec, hrate, hblock]
    have hlt : (channels * bitsPerSample / 8) % 2 ^ 16 < 2 ^ 32 :=
      lt_trans (Nat.mod_lt _ (by decide)) (by decide)
    rw [Nat.mod_eq_of_lt hlt]
  refine ⟨?_, mkFormat_WFormatTag _ _ _, hchan, hrate, hbits, hblock, havg, ?_⟩
  · rw [New_eq]
    split <;> rfl
  · intro h1 h2 h3 h4 h5
    refine ⟨?_, ?_, ?_, ?_, ?_⟩
    · rw [hchan, Nat.mod_eq_of_lt h1]
    · rw [hrate, Nat.mod_eq_of_lt h3]
    · rw [hbits, Nat.mod_eq_of_lt h2]
    · rw [hblock, Nat.mod_eq_of_lt h4]
    · rw [havg, hblock, Nat.mod_eq_of_lt h4, Nat.mod_eq_of_lt h3, Nat.mod_eq_of_lt h5]

theorem format_values_witness :
    (1 ≤ 2 ∧ 1 ≤ 44100 ∧ 1 ≤ 16 ∧ 2 * 16 < 2 ^ 63) ∧
    (New 2 44100 16 0 1).calls = [DevCall.waveOutOpen WAVE_MAPPER (mkFormat 2 44100 16)] ∧
    (mkFormat 2 44100 16).NBlockAlign = 4 ∧ (mkFormat 2 44100 16).NAvgBytesPerSec = 176400 :=
  ⟨by decide, (format_values 2 44100 16 0 1 (by decide) (by decide) (by decide) (by decide)).1,
    by decide, by decide⟩

/-- C9, counterexample. `New(65536, 1, 8)` hands the device a format with
NChannels = 0 and NBlockAlign = 0, whereas channels = 65536 and
channels × bitsPerSample / 8 = 65536; the byte rate is 0, not 65536. -/
theorem format_fields_truncate :
    New 65536 1 8 0 1 =
      .created exampleWaveOut
        [DevCall.waveOutOpen WAVE_MAPPER
          { WFormatTag := 1, NChannels := 0, NSamplesPerSec := 1, NAvgBytesPerSec := 0,
            NBlockAlign := 0, WBitsPerSample := 8, CbSize := 20 }] ∧
    (65536 * 8 / 8 : Nat) = 65536 ∧ (1 * (65536 * 8 / 8) : Nat) = 65536 := by
  decide

theorem format_int_overflow :
    (mkFormat 3074457345618258603 1 3).NBlockAlign = 1 ∧
    (3074457345618258603 * 3 / 8 : Nat) % 2 ^ 16 = 0 := by
  decide

/-- C8, as the code has it. `New` fills the queue with slots 0, 1, 2 in index
order and a `Write` that returns takes the head of the queue. From a fresh
ring, `Write` of non-empty A, B, C, a reclaim of slot 0 and `Write` of D return
slots 0, 1, 2, 0, leave slot 0 bound to D, and issue the play commands of A, B,
C, D in that order. In every run the play commands are those of the `Write`
calls, one per call and in call order, each carrying the address of the data
of its call and the length of that data modulo 2^32 (`DwBufferLength` is a
32-bit field), which is the length itself when it is below 2^32. -/
theorem order_preservation (channels samplesPerSec bitsPerSample : Int) (openResult phwo : Nat)
    (w : WaveOut) (calls : List DevCall)
    (hn : New channels samplesPerSec bitsPerSample openResult phwo = .created w calls) :
    w.available.buf = [some 0, some 1, some 2] ∧
    (∀ (w0 w1 : WaveOut) (data : ByteSlice) (p q : Nat) (v : Ptr) (c : List DevCall),
      Write w0 data p q = .ret w1 v c → w0.available.buf = v :: w1.available.buf) ∧
    (∀ A B C D : ByteSlice, A.len ≠ 0 → B.len ≠ 0 → C.len ≠ 0 → D.len ≠ 0 →
      ∀ p1 q1 p2 q2 p3 q3 p4 q4 result : Nat, result ≠ WAVERR_STILLPLAYING →
      ∃ r, (Ring.start w calls).run
          [.write A p1 q1, .write B p2 q2, .write C p3 q3, .isHeaderFinished 0 result,
           .write D p4 q4] = some r ∧
        r.issued = [0, 1, 2, 0] ∧ (r.w.buffers.get 0).data = D ∧
        playsOf r.log = [(A.ptr, A.len % 2 ^ 32), (B.ptr, B.len % 2 ^ 32),
          (C.ptr, C.len % 2 ^ 32), (D.ptr, D.len % 2 ^ 32)]) ∧
    (∀ (cs : List Call) (r : Ring), (Ring.start w calls).run cs = some r →
      playsOf r.log = (writesOf cs).map (fun data => (data.ptr, data.len % 2 ^ 32)) ∧
      r.issued.length = (writesOf cs).length) ∧
    (∀ data : ByteSlice, data.len < 2 ^ 32 → (data.ptr, data.len % 2 ^ 32) = (data.ptr, data.len)) := by
  obtain ⟨-, rfl, rfl⟩ := New_created_inv hn
  refine ⟨rfl, ?_, ?_, ?_, ?_⟩
  · intro w0 w1 data p q v c hw
    obtain ⟨i, rest, hb, -, rfl, rfl, -⟩ := Write_ret_inv hw
    exact hb
  · intro A B C D hA hB hC hD p1 q1 p2 q2 p3 q3 p4 q4 result hne
    obtain ⟨r, hrun, h1, -, -, h2, -, -, h3⟩ :=
      Ring.scenario phwo [DevCall.waveOutOpen WAVE_MAPPER (mkFormat channels samplesPerSec bitsPerSample)]
        A B C D hA hB hC hD p1 q1 p2 q2 p3 q3 p4 q4 result hne
    exact ⟨r, hrun, h1, h2, h3⟩
  · intro cs r hrun
    obtain ⟨h1, h2⟩ := Ring.run_plays hrun
    refine ⟨h1, ?_⟩
    simpa [Ring.start] using h2
  · intro data hlt
    rw [Nat.mod_eq_of_lt hlt]

theorem order_preservation_witness :
    New 2 44100 16 0 1 = .created exampleWaveOut exampleOpen ∧
    exampleWaveOut.available.buf = [some 0, some 1, some 2] ∧
    ((Ring.start exampleWaveOut exampleOpen).run
        [.write bufA 0 0, .write bufB 0 0, .write bufC 0 0, .isHeaderFinished 0 0,
         .write bufD 0 0]).map (fun r => (r.issued, playsOf r.log)) =
      some ([0, 1, 2, 0], [(0x10000, 4096), (0x20000, 4096), (0x30000, 4096), (0x40000, 4096)]) :=
  ⟨by decide, (order_preservation 2 44100 16 0 1 exampleWaveOut exampleOpen (by decide)).1,
    by decide⟩

/-- C8, counterexample. On the ring of `New(2, 44100, 16)`, a `Write` of a
slice of 2^32 bytes at address 0x10000 issues a play command whose descriptor
has length 0, not 2^32. -/
theorem play_length_truncated :
    ((Ring.start exampleWaveOut exampleOpen).run
        [.write { ptr := 0x10000, len := 4294967296 } 0 0]).map (fun r => playsOf r.log) =
      some [(0x10000, 0)] := by
  decide

theorem exampleRingA_reachable : Reachable exampleRingA :=
  ⟨2, 44100, 16, 0, 1, exampleWaveOut, exampleOpen, [.write bufA 0 0], by decide, by decide⟩

theorem Ring.Inv.inflight_nodup {r : Ring} (hi : r.Inv) : r.inflight.Nodup :=
  List.Nodup.of_map _ (List.nodup_append.mp hi.nodup).2.1

theorem Ring.Inv.head_not_inflight {r : Ring} (hi : r.Inv) {i : Fin 3} {rest : List Ptr}
    (hb : r.w.available.buf = some i :: rest) : i ∉ r.inflight := by
  intro hm
  have hnd := hi.nodup
  rw [hb] at hnd
  exact (List.nodup_append.mp hnd).2.2 (List.mem_cons_self _ _) (List.mem_map_of_mem some hm)

theorem Ring.slot_persists {h : Fin 3} {cs : List Call} :
    ∀ {r r1 : Ring}, r.Inv → r.run cs = some r1 → h ∈ r.inflight →
      (∀ result, Call.isHeaderFinished h result ∈ cs → result = WAVERR_STILLPLAYING) →
      r1.w.buffers.get h = r.w.buffers.get h := by
  induction cs with
  | nil =>
    intro r r1 _ hr _ _
    rw [Ring.run_nil] at hr
    cases hr
    rfl
  | cons c cs ih =>
    intro r r1 hi hr hm hno
    rw [Ring.run_cons] at hr
    cases hs : r.step c with
    | none => rw [hs] at hr; cases hr
    | some r2 =>
      rw [hs] at hr
      have hi2 : r2.Inv := hi.step hs
      have hno2 : ∀ result, Call.isHeaderFinished h result ∈ cs → result = WAVERR_STILLPLAYING :=
        fun result hin => hno result (List.mem_cons_of_mem _ hin)
      have hm2 : h ∈ r2.inflight :=
        @Ring.inflight_persists h [c] r r2 (by rw [Ring.run_cons, hs]; rfl) hm
          (fun result hin => hno result (by
            rw [List.mem_singleton] at hin
            rw [hin]
            exact List.mem_cons_self _ _))
      rw [ih hi2 hr hm2 hno2]
      cases c with
      | write data p q =>
        obtain ⟨i, rest, hb, -, rfl⟩ := Ring.step_write_inv hs
        have hne : h ≠ i := fun heq => hi.head_not_inflight hb (heq ▸ hm)
        show (r.w.buffers.set i (boundSlot (r.w.buffers.get i) data)).get h = _
        rw [Buffers.get_set, if_neg hne]
      | isHeaderFinished k result =>
        obtain ⟨-, hcase⟩ := Ring.step_poll_inv hs
        rcases hcase with ⟨-, rfl⟩ | ⟨-, -, -, rfl⟩ <;> rfl

theorem Ring.issuer_exists {h : Fin 3} {cs : List Call} :
    ∀ {r0 r2 : Ring}, r0.Inv → r0.run cs = some r2 → h ∈ r2.inflight →
      (h ∈ r0.inflight ∧
        ∀ result, Call.isHeaderFinished h result ∈ cs → result = WAVERR_STILLPLAYING) ∨
      (∃ pre data p q r r1 mid w1 c1, cs = pre ++ Call.write data p q :: mid ∧
        r0.run pre = some r ∧ Write r.w data p q = .ret w1 (some h) c1 ∧
        r.step (.write data p q) = some r1 ∧ r1.run mid = some r2 ∧
        ∀ result, Call.isHeaderFinished h result ∈ mid → result = WAVERR_STILLPLAYING) := by
  induction cs with
  | nil =>
    intro r0 r2 _ hr hm
    rw [Ring.run_nil] at hr
    cases hr
    exact Or.inl ⟨hm, fun _ hin => absurd hin (List.not_mem_nil _)⟩
  | cons c cs ih =>
    intro r0 r2 hi hr hm
    rw [Ring.run_cons] at hr
    cases hs : r0.step c with
    | none => rw [hs] at hr; cases hr
    | some ra =>
      rw [hs] at hr
      rcases ih (hi.step hs) hr hm with ⟨hma, hno⟩ | ⟨pre, data, p, q, r, r1, mid, w1, c1, hcs, hpre, hw, hst, hmid, hno⟩
      · cases c with
        | write data p q =>
          obtain ⟨i, rest, hb, hd, rfl⟩ := Ring.step_write_inv hs
          by_cases hih : h = i
          · subst hih
            exact Or.inr ⟨[], data, p, q, r0, _, cs, _, _, rfl, Ring.run_nil r0,
              Write_head r0.w data p q h rest hb hd, hs, hr, hno⟩
          · left
            refine ⟨?_, ?_⟩
            · rcases List.mem_append.mp hma with hx | hx
              · exact hx
              · exact absurd (List.mem_singleton.mp hx) hih
            · intro result hin
              rcases List.mem_cons.mp hin with hx | hx
              · cases hx
              · exact hno result hx
        | isHeaderFinished k result =>
          obtain ⟨-, hcase⟩ := Ring.step_poll_inv hs
          left
          rcases hcase with ⟨h33, rfl⟩ | ⟨-, -, -, rfl⟩
          · refine ⟨hma, ?_⟩
            intro res hin
            rcases List.mem_cons.mp hin with hx | hx
            · cases hx
              exact h33
            · exact hno res hx
          · have hmem : h ∈ r0.inflight.erase k := hma
            have hne : h ≠ k := fun heq => by
              subst heq
              exact (List.Nodup.not_mem_erase hi.inflight_nodup) hmem
            refine ⟨List.mem_of_mem_erase hmem, ?_⟩
            intro res hin
            rcases List.mem_cons.mp hin with hx | hx
            · cases hx
              exact absurd rfl hne
            · exact hno res hx
      · refine Or.inr ⟨c :: pre, data, p, q, r, r1, mid, w1, c1, ?_, ?_, hw, hst, hmid, hno⟩
        · rw [hcs]
          rfl
        · rw [Ring.run_cons, hs]
          exact hpre

theorem Write_frame {w w1 : WaveOut} {data : ByteSlice} {p q : Nat} {v : Ptr}
    {calls : List DevCall} (hw : Write w data p q = .ret w1 v calls) (k : Fin 3) :
    (v ≠ some k → w1.buffers.get k = w.buffers.get k) ∧
    (v = some k → w.available.buf.head? = some (some k) ∧ (w1.buffers.get k).data = data ∧
      (w1.buffers.get k).hdr.LpData = data.ptr ∧
      (w1.buffers.get k).hdr.DwBufferLength = data.len % 2 ^ 32) := by
  obtain ⟨i, rest, hb, -, rfl, rfl, -⟩ := Write_ret_inv hw
  constructor
  · intro hne
    have hki : k ≠ i := fun heq => hne (by rw [heq])
    show (w.buffers.set i _).get k = _
    rw [Buffers.get_set, if_neg hki]
  · intro heq
    simp only [Option.some.injEq] at heq
    subst heq
    refine ⟨by rw [hb]; rfl, ?_, ?_, ?_⟩ <;>
      simp [writtenState, Buffers.get_set, boundSlot]

/-- C10, as the code has it. In every reachable state, for every handle `h` in
flight, an `IsHeaderFinished` call that returns true changes no slot and puts
`h` in the queue. Handle `h` was returned by a `Write` of the run after which
no `IsHeaderFinished` on `h` was answered with a status other than
WAVERR_STILLPLAYING, and for every such `Write` slot `h` still holds the
non-empty data passed to that call and the descriptor stored for it (address
and length modulo 2^32). A slot changes only in a `Write` that takes it from
the head of the queue, which binds the data of that call: `Write` leaves every
other slot alone, and `IsHeaderFinished` and `Close` leave every slot alone. -/
theorem reclaim_keeps_data (r2 : Ring) (hr : Reachable r2) (h : Fin 3) (hm : h ∈ r2.inflight)
    (result : Nat) (w3 : WaveOut) (c3 : List DevCall)
    (he : IsHeaderFinished r2.w (some h) result = .ret w3 true c3) :
    w3.buffers = r2.w.buffers ∧ some h ∈ w3.available.buf ∧
    (w3.buffers.get h).data.len ≠ 0 ∧
    (∃ r data p q w1 c1 r1 mid, Reachable r ∧
      Write r.w data p q = .ret w1 (some h) c1 ∧ r.step (.write data p q) = some r1 ∧
      r1.run mid = some r2 ∧
      ∀ res, Call.isHeaderFinished h res ∈ mid → res = WAVERR_STILLPLAYING) ∧
    (∀ r data p q w1 c1 r1 mid, Reachable r →
      Write r.w data p q = .ret w1 (some h) c1 → r.step (.write data p q) = some r1 →
      r1.run mid = some r2 →
      (∀ res, Call.isHeaderFinished h res ∈ mid → res = WAVERR_STILLPLAYING) →
      (w3.buffers.get h).data = data ∧ (w3.buffers.get h).hdr.LpData = data.ptr ∧
      (w3.buffers.get h).hdr.DwBufferLength = data.len % 2 ^ 32) ∧
    (∀ (w w1 : WaveOut) (data : ByteSlice) (p q : Nat) (v : Ptr) (c : List DevCall) (k : Fin 3),
      Write w data p q = .ret w1 v c →
      (v ≠ some k → w1.buffers.get k = w.buffers.get k) ∧
      (v = some k → w.available.buf.head? = some (some k) ∧ (w1.buffers.get k).data = data)) ∧
    (∀ (w w1 : WaveOut) (k : Fin 3) (res : Nat) (b : Bool) (c : List DevCall),
      IsHeaderFinished w (some k) res = .ret w1 b c → w1.buffers = w.buffers) ∧
    (∀ (w w1 : WaveOut) (closeResult : Nat) (c : List DevCall),
      Close w closeResult = .ret w1 () c → w1.buffers = w.buffers) := by
  have hb3 : w3.buffers = r2.w.buffers := by
    rcases IsHeaderFinished_ret_inv he with ⟨hf, -, -⟩ | ⟨-, -, hb, -, -⟩
    · cases hf
    · exact hb
  refine ⟨hb3, ?_, ?_, ?_, ?_, ?_, ?_, ?_⟩
  · rcases IsHeaderFinished_ret_inv he with ⟨hf, -, -⟩ | ⟨-, -, -, -, ha⟩
    · cases hf
    · rw [ha]
      exact List.mem_append_right _ (List.mem_singleton_self _)
  · rw [hb3]
    exact hr.inv.bound h hm
  · obtain ⟨c, s, b, o, ph, w, calls, cs, hn, hrun⟩ := hr
    obtain ⟨-, hw0, -⟩ := New_created_inv hn
    have hi0 : (Ring.start w calls).Inv := hw0 ▸ Ring.Inv.start ph calls
    rcases Ring.issuer_exists hi0 hrun hm with ⟨hm0, -⟩ |
      ⟨pre, data, p, q, r, r1, mid, w1, c1, -, hpre, hw, hst, hmid, hno⟩
    · cases hm0
    · exact ⟨r, data, p, q, w1, c1, r1, mid, ⟨c, s, b, o, ph, w, calls, pre, hn, hpre⟩, hw, hst,
        hmid, hno⟩
  · intro r data p q w1 c1 r1 mid hrr hw hst hmid hno
    have hi1 : r1.Inv := hrr.inv.step hst
    obtain ⟨i, rest, hb, hd, rfl⟩ := Ring.step_write_inv hst
    obtain ⟨j, rest1, hb1, -, hv, -, -⟩ := Write_ret_inv hw
    rw [hb] at hb1
    simp only [List.cons.injEq, Option.some.injEq] at hb1 hv
    have hih : i = h := by rw [hv]; exact hb1.1
    subst hih
    have hm1 : i ∈ (r.afterWrite i rest data).inflight :=
      List.mem_append_right _ (List.mem_singleton_self _)
    have hslot := Ring.slot_persists hi1 hmid hm1 hno
    rw [hb3, hslot]
    refine ⟨?_, ?_, ?_⟩ <;> simp [Ring.afterWrite, writtenState, Buffers.get_set, boundSlot]
  · intro w w1 data p q v c k hw
    exact ⟨(Write_frame hw k).1, fun hv => ⟨((Write_frame hw k).2 hv).1, ((Write_frame hw k).2 hv).2.1⟩⟩
  · intro w w1 k res b c hek
    rcases IsHeaderFinished_ret_inv hek with ⟨-, -, hw⟩ | ⟨-, -, hb, -, -⟩
    · rw [hw]
    · exact hb
  · intro w w1 closeResult c hc
    cases hcl : w.available.closed
    · rw [Close_open w closeResult hcl] at hc
      simp only [Outcome.ret.injEq] at hc
      rw [← hc.1]
    · rw [Close_closed w closeResult hcl] at hc
      cases hc

theorem reclaim_keeps_data_witness :
    Reachable exampleRing ∧ (1 : Fin 3) ∈ exampleRing.inflight ∧
    IsHeaderFinished exampleRing.w (some 1) 0 =
      .ret { exampleRing.w with
              available := { exampleRing.w.available with buf := [some 2, some 0, some 1] } }
        true [DevCall.waveOutUnprepareHeader 1 1 (exampleRing.w.buffers.get 1).hdr 48] ∧
    Reachable exampleRingA ∧
    Write exampleRingA.w bufB 0 0 =
      .ret (writtenState exampleRingA.w 1 [some 2] bufB) (some 1)
        (writeCalls exampleRingA.w 1 bufB) ∧
    (exampleRingA.afterWrite 1 [some 2] bufB).run [.isHeaderFinished 0 0] = some exampleRing ∧
    (exampleRing.w.buffers.get 1).data = bufB ∧
    (exampleRing.w.buffers.get 1).hdr.LpData = bufB.ptr ∧
    (exampleRing.w.buffers.get 1).hdr.DwBufferLength = bufB.len % 2 ^ 32 :=
  ⟨exampleRing_reachable, by decide, by decide, exampleRingA_reachable, by decide, by decide,
    (reclaim_keeps_data exampleRing exampleRing_reachable 1 (by decide) 0
      { exampleRing.w with
          available := { exampleRing.w.available with buf := [some 2, some 0, some 1] } }
      [DevCall.waveOutUnprepareHeader 1 1 (exampleRing.w.buffers.get 1).hdr 48]
      (by decide)).2.2.2.2.1 exampleRingA bufB 0 0
        (writtenState exampleRingA.w 1 [some 2] bufB) (writeCalls exampleRingA.w 1 bufB)
        (exampleRingA.afterWrite 1 [some 2] bufB) [.isHeaderFinished 0 0]
        exampleRingA_reachable (by decide) (by decide) (by decide)
        (fun res hin => by simp at hin)⟩

end Winmm
